import Mathlib

/-!
# Verification of the feed-collection semantics of `nws_cap`

Shallow embedding of `nws_cap/CAP_Feed.py`: a feed is an insertion-ordered
dictionary from alert identifier to alert (Python `dict` assignment replaces
the value of an existing key in place and appends a fresh key).  The alert
class `CAP_Alert` is not among the provided sources, so it is modelled from
the spec as a pair of mappings (fields and geocodes).  Network-performing
constructors (`from_url`, `whole_state`) are abstracted as an oracle
`fetch : String → CAP_Feed` standing for `whole_state state`.
-/

/-- Modelled from the spec: `CAP_Alert` (its file `CAP_Alert.py` is not part
of the provided sources).  An alert carries a field mapping (key to scalar
value, e.g. the identifier) and a geocode mapping (notation name to the list
of location codes published under that notation). -/
structure CAP_Alert where
  fields : List (String × String)
  geocodes : List (String × List String)
deriving DecidableEq

/-- Modelled from the spec: `get_field(name)` returns the scalar value of the
named field; an absent field is the failure case (`none` here, a lookup error
in the source). -/
def CAP_Alert.get_field (a : CAP_Alert) (name : String) : Option String :=
  (a.fields.find? (fun p => p.1 == name)).map Prod.snd

/-- Modelled from the spec: `get_geocode` returns the location codes
published for the given notation, and the empty set when the entry has no
geocodes of that notation. -/
def CAP_Alert.get_geocode (a : CAP_Alert) (ntn : String) : List String :=
  ((a.geocodes.find? (fun p => p.1 == ntn)).map Prod.snd).getD []

/-- The dictionary key used throughout `CAP_Feed.py`: `alert.get_field('id')`. -/
def aid (a : CAP_Alert) : Option String := a.get_field "id"

/-- The internal collection `self.alerts`: a Python `dict` from identifier to
alert, modelled as an insertion-ordered association list with unique keys. -/
abbrev AlertDict := List (Option String × CAP_Alert)

/-- Python dict assignment `d[k] = v`: replace the value of an existing key in
place, append a fresh key at the end. -/
def dinsert (k : Option String) (v : CAP_Alert) (d : AlertDict) : AlertDict :=
  if d.any (fun p => p.1 == k) then
    d.map (fun p => if p.1 == k then (k, v) else p)
  else d ++ [(k, v)]

/-- Python dict lookup `d[k]` (as `Option`). -/
def dget (k : Option String) (d : AlertDict) : Option CAP_Alert :=
  (d.find? (fun p => p.1 == k)).map Prod.snd

/-- Python `d.keys()`. -/
def dkeys (d : AlertDict) : List (Option String) := d.map Prod.fst

/-- Python `d.values()`. -/
def dvalues (d : AlertDict) : List CAP_Alert := d.map Prod.snd

/-- `CAP_Feed`: owns the identifier-indexed alert dictionary. -/
structure CAP_Feed where
  alerts : AlertDict
deriving DecidableEq

/-- `CAP_Feed.__init__(alert_list)`:
`for alert in alert_list: self.alerts[alert.get_field('id')] = alert`. -/
def CAP_Feed.mk_of_list (alert_list : List CAP_Alert) : CAP_Feed :=
  ⟨alert_list.foldl (fun d a => dinsert (aid a) a d) []⟩

/-- `CAP_Feed.get_alerts`: `self.alerts.values()`. -/
def CAP_Feed.get_alerts (f : CAP_Feed) : List CAP_Alert := dvalues f.alerts

/-- `CAP_Feed.count_alerts`: `len(self.alerts.values())`. -/
def CAP_Feed.count_alerts (f : CAP_Feed) : Nat := (dvalues f.alerts).length

/-- `CAP_Feed.__add__`: `self.__class__(self.get_alerts() + other.get_alerts())`. -/
def CAP_Feed.add (f other : CAP_Feed) : CAP_Feed :=
  CAP_Feed.mk_of_list (f.get_alerts ++ other.get_alerts)

/-- `CAP_Feed.__iadd__`:
`for alert in other.get_alerts(): self.alerts[alert.get_field('id')] = alert`. -/
def CAP_Feed.iadd (f other : CAP_Feed) : CAP_Feed :=
  ⟨other.get_alerts.foldl (fun d a => dinsert (aid a) a d) f.alerts⟩

/-- Python `d.setdefault(k, []).append(v)` on the grouping dict of
`categorize_alerts`. -/
def gappend (k : Option String) (v : CAP_Alert) (d : List (Option String × List CAP_Alert)) :
    List (Option String × List CAP_Alert) :=
  if d.any (fun p => p.1 == k) then
    d.map (fun p => if p.1 == k then (p.1, p.2 ++ [v]) else p)
  else d ++ [(k, [v])]

/-- `CAP_Feed.categorize_alerts(field_name)`: group the current alerts by the
value of `field_name`; `None` when the feed is empty. -/
def CAP_Feed.categorize_alerts (f : CAP_Feed) (field_name : String) :
    Option (List (Option String × List CAP_Alert)) :=
  if f.count_alerts ≠ 0 then
    some ((dvalues f.alerts).foldl (fun d e => gappend (e.get_field field_name) e d) [])
  else none

/-- Python `entry.get_field(field_name) in values` (the field is present on
every alert the claims range over; an absent field cannot match). -/
def memValues (o : Option String) (values : List String) : Bool :=
  match o with
  | some v => values.contains v
  | none => false

/-- `CAP_Feed.filter_alerts(field_name, values, store)`: first component is the
returned value (`None` on an empty feed), second the feed state afterwards
(`self.alerts = alerts` when `store`). -/
def CAP_Feed.filter_alerts (f : CAP_Feed) (field_name : String) (values : List String)
    (store : Bool) : Option (List CAP_Alert) × CAP_Feed :=
  if f.count_alerts ≠ 0 then
    let d := (dvalues f.alerts).foldl
      (fun d e => if memValues (e.get_field field_name) values then
        dinsert (aid e) e d else d) []
    (some (dvalues d), if store then ⟨d⟩ else f)
  else (none, f)

/-- `len(set(alert.get_geocode(notation)).intersection(set(locations)))`:
the number of distinct geocodes of the alert that are also requested. -/
def geoMatches (a : CAP_Alert) (ntn : String) (locations : List String) : Nat :=
  ((a.get_geocode ntn).dedup.filter (fun c => locations.contains c)).length

/-- `CAP_Feed.filter_by_location(locations, notation, store)`: keep the alerts
whose intersection count equals `len(locations)`; `None` on an empty feed;
first component is the returned value, second the feed state afterwards. -/
def CAP_Feed.filter_by_location (f : CAP_Feed) (locations : List String) (ntn : String)
    (store : Bool) : Option (List CAP_Alert) × CAP_Feed :=
  if f.count_alerts == 0 then (none, f)
  else
    let d := f.get_alerts.foldl
      (fun d a => if geoMatches a ntn locations == locations.length then
        dinsert (aid a) a d else d) []
    (some (dvalues d), if store then ⟨d⟩ else f)

/-- Python `requests.setdefault(zone[0:2].lower(), []).append(zone)`. -/
def sgappend (k : String) (v : String) (d : List (String × List String)) :
    List (String × List String) :=
  if d.any (fun p => p.1 == k) then
    d.map (fun p => if p.1 == k then (p.1, p.2 ++ [v]) else p)
  else d ++ [(k, [v])]

/-- The state code a zone belongs to: `zone[0:2].lower()` (the first two
characters, lowercased). -/
def stateOf (zone : String) : String := ⟨(zone.data.take 2).map Char.toLower⟩

/-- The `requests` grouping dict of `get_zones`: zone codes grouped under
their two-character state code. -/
def zoneRequests (zone_codes : List String) : List (String × List String) :=
  zone_codes.foldl (fun d z => sgappend (stateOf z) z d) []

/-- The whole-state fetches performed by `get_zones`: one `whole_state` call
per key of `requests`, independent of the fetched contents. -/
def getZonesFetches (zone_codes : List String) : List String :=
  (zoneRequests zone_codes).map Prod.fst

/-- The list `filter_by_location([zone], notation='UGC')` returns for one zone
against one state feed (empty when the call returns `None`). -/
def fblList (f : CAP_Feed) (z : String) : List CAP_Alert :=
  ((f.filter_by_location [z] "UGC" false).1).getD []

/-- `CAP_Feed.get_zones(zone_codes)`, with the network-performing
`cls.whole_state(state, ...)` abstracted as the oracle `fetch`.  The source
runs `alerts += state_alerts.filter_by_location([zone], notation='UGC')`;
when that call returns `None` (empty state feed) the `+=` raises `TypeError`,
modelled as the `none` outcome. -/
def CAP_Feed.get_zones (fetch : String → CAP_Feed) (zone_codes : List String) :
    Option CAP_Feed :=
  ((zoneRequests zone_codes).foldlM
    (fun (alerts : List CAP_Alert) (p : String × List String) =>
      let state_alerts := fetch p.1
      p.2.foldlM
        (fun l z => ((state_alerts.filter_by_location [z] "UGC" false).1).map (l ++ ·))
        alerts)
    ([] : List CAP_Alert)).map CAP_Feed.mk_of_list

/-- Wellformedness of the internal dictionary: keys are unique and each entry
is indexed under its own alert's identifier field. -/
def WFdict (d : AlertDict) : Prop :=
  (dkeys d).Nodup ∧ ∀ p ∈ d, p.1 = aid p.2

/-- The Feed invariant: no two held entries share an identifier, and the key
of each entry equals the stored alert's `id` field. -/
def FeedWF (f : CAP_Feed) : Prop := WFdict f.alerts

instance (d : AlertDict) : Decidable (WFdict d) :=
  inferInstanceAs (Decidable (_ ∧ _))

instance (f : CAP_Feed) : Decidable (FeedWF f) :=
  inferInstanceAs (Decidable (WFdict _))

/-- The alert's geocode set under `ntn` contains every requested code. -/
def coversAll (a : CAP_Alert) (ntn : String) (locations : List String) : Bool :=
  locations.all (fun c => (a.get_geocode ntn).contains c)

/-! Concrete sample data used to instantiate the general theorems. -/

/-- Sample alert, identifier `X`, urgency `Immediate`, zones `z1`, `z2`. -/
def wa : CAP_Alert := ⟨[("id", "X"), ("urgency", "Immediate")], [("UGC", ["z1", "z2"])]⟩

/-- Sample alert with the same identifier `X` but different content. -/
def wb : CAP_Alert := ⟨[("id", "X"), ("urgency", "Expected")], [("UGC", ["z1"])]⟩

/-- Sample alert, identifier `Y`, zone `z1` only. -/
def wc : CAP_Alert := ⟨[("id", "Y"), ("urgency", "Immediate")], [("UGC", ["z1"])]⟩

/-- A sample non-empty feed holding `wa` and `wc`. -/
def wFeed : CAP_Feed := CAP_Feed.mk_of_list [wa, wc]

/-- A second sample feed holding `wb`. -/
def wFeedB : CAP_Feed := CAP_Feed.mk_of_list [wb]

/-- The empty feed. -/
def wEmpty : CAP_Feed := CAP_Feed.mk_of_list []

/-- A fetch oracle returning the same non-empty feed for every state. -/
def wFetch : String → CAP_Feed := fun _ => wFeed

/-- A fetch oracle whose `oh` feed is empty. -/
def wFetchBad : String → CAP_Feed := fun s => if s = "oh" then wEmpty else wFeed

/-! ## Dictionary lemmas -/

lemma mem_dkeys {k : Option String} {d : AlertDict} : k ∈ dkeys d ↔ ∃ p ∈ d, p.1 = k := by
  simp [dkeys, List.mem_map]

lemma dany_eq_true (d : AlertDict) (k : Option String) :
    (d.any fun p => p.1 == k) = true ↔ k ∈ dkeys d := by
  simp [List.any_eq_true, mem_dkeys]

lemma dinsert_of_not_mem {k : Option String} (v : CAP_Alert) {d : AlertDict}
    (h : k ∉ dkeys d) : dinsert k v d = d ++ [(k, v)] := by
  unfold dinsert
  exact if_neg (fun hc => h ((dany_eq_true d k).mp hc))

lemma dinsert_of_mem {k : Option String} (v : CAP_Alert) {d : AlertDict}
    (h : k ∈ dkeys d) :
    dinsert k v d = d.map (fun p => if p.1 == k then (k, v) else p) := by
  unfold dinsert
  exact if_pos ((dany_eq_true d k).mpr h)

lemma dget_cons (k : Option String) (p : Option String × CAP_Alert) (d : AlertDict) :
    dget k (p :: d) = if p.1 = k then some p.2 else dget k d := by
  unfold dget
  by_cases h : p.1 = k <;> simp [List.find?_cons, h]

lemma dget_eq_none {k : Option String} {d : AlertDict} :
    dget k d = none ↔ k ∉ dkeys d := by
  unfold dget
  cases hfind : List.find? (fun p => p.1 == k) d with
  | none =>
    rw [List.find?_eq_none] at hfind
    simp only [Option.map_none', true_iff]
    intro hk
    obtain ⟨p, hp, hpk⟩ := mem_dkeys.mp hk
    exact hfind p hp (by simp [hpk])
  | some p =>
    have hp := List.find?_some hfind
    have hmem := List.mem_of_find?_eq_some hfind
    have hk : k ∈ dkeys d := mem_dkeys.mpr ⟨p, hmem, by simpa using hp⟩
    simp [hk]

lemma dget_append (k : Option String) (d₁ d₂ : AlertDict) :
    dget k (d₁ ++ d₂) = (dget k d₁).or (dget k d₂) := by
  unfold dget
  rw [List.find?_append]
  cases List.find? (fun p => p.1 == k) d₁ <;> simp [Option.or]

lemma dget_dinsert (k k' : Option String) (v : CAP_Alert) (d : AlertDict) :
    dget k' (dinsert k v d) = if k' = k then some v else dget k' d := by
  by_cases hm : k ∈ dkeys d
  · rw [dinsert_of_mem v hm]
    unfold dget
    rw [List.find?_map]
    by_cases hk : k' = k
    · subst hk
      have hpred : ((fun p : Option String × CAP_Alert => p.1 == k') ∘
          (fun p => if p.1 == k' then (k', v) else p)) = fun p => p.1 == k' := by
        funext p
        by_cases hp : p.1 = k' <;> simp [Function.comp, hp]
      rw [hpred]
      obtain ⟨p, hp, hpk⟩ := mem_dkeys.mp hm
      have hsome : (List.find? (fun p => p.1 == k') d).isSome := by
        rw [List.find?_isSome]
        exact ⟨p, hp, by simp [hpk]⟩
      obtain ⟨q, hq⟩ := Option.isSome_iff_exists.mp hsome
      have hqk : q.1 = k' := by simpa using List.find?_some hq
      simp [hq, hqk]
    · have hpred : ((fun p : Option String × CAP_Alert => p.1 == k') ∘
          (fun p => if p.1 == k then (k, v) else p)) = fun p => p.1 == k' := by
        funext p
        by_cases hp : p.1 = k
        · simp [Function.comp, hp, Ne.symm hk, fun h : k = k' => hk h.symm]
        · simp [Function.comp, hp]
      rw [hpred, if_neg hk]
      cases hfind : List.find? (fun p => p.1 == k') d with
      | none => simp
      | some q =>
        have hqk : q.1 = k' := by simpa using List.find?_some hfind
        have hqne : ¬(q.1 = k) := by rw [hqk]; exact hk
        simp [hqne]
  · rw [dinsert_of_not_mem v hm, dget_append]
    by_cases hk : k' = k
    · subst hk
      have : dget k' d = none := dget_eq_none.mpr hm
      simp [this, dget_cons]
    · have hkk : ¬k = k' := fun h => hk h.symm
      have : dget k' [(k, v)] = none := by simp [dget_cons, hkk, dget]
      simp [this, hk]

lemma dkeys_dinsert (k : Option String) (v : CAP_Alert) (d : AlertDict) :
    dkeys (dinsert k v d) = if k ∈ dkeys d then dkeys d else dkeys d ++ [k] := by
  by_cases hm : k ∈ dkeys d
  · rw [dinsert_of_mem v hm, if_pos hm]
    unfold dkeys
    rw [List.map_map]
    apply List.map_congr_left
    intro p _
    by_cases hpk : p.1 = k <;> simp [Function.comp, hpk]
  · rw [dinsert_of_not_mem v hm, if_neg hm]
    simp [dkeys]

lemma mem_dkeys_dinsert (k k' : Option String) (v : CAP_Alert) (d : AlertDict) :
    k' ∈ dkeys (dinsert k v d) ↔ k' = k ∨ k' ∈ dkeys d := by
  rw [dkeys_dinsert]
  by_cases hm : k ∈ dkeys d
  · rw [if_pos hm]
    constructor
    · exact Or.inr
    · rintro (rfl | h)
      · exact hm
      · exact h
  · rw [if_neg hm]
    simp [or_comm]

lemma nodup_dkeys_dinsert (k : Option String) (v : CAP_Alert) {d : AlertDict}
    (h : (dkeys d).Nodup) : (dkeys (dinsert k v d)).Nodup := by
  rw [dkeys_dinsert]
  by_cases hm : k ∈ dkeys d
  · rwa [if_pos hm]
  · rw [if_neg hm]
    simp [List.nodup_append, h, hm]

lemma WFdict_dinsert (v : CAP_Alert) {d : AlertDict} (h : WFdict d) :
    WFdict (dinsert (aid v) v d) := by
  refine ⟨nodup_dkeys_dinsert _ _ h.1, ?_⟩
  intro p hp
  by_cases hm : aid v ∈ dkeys d
  · rw [dinsert_of_mem v hm] at hp
    obtain ⟨q, hq, hqp⟩ := List.mem_map.mp hp
    by_cases hqk : q.1 = aid v
    · rw [← hqp]
      simp [hqk]
    · rw [← hqp]
      simp only [hqk, beq_iff_eq, if_neg]
      exact h.2 q hq
  · rw [dinsert_of_not_mem v hm] at hp
    rcases List.mem_append.mp hp with hq | hq
    · exact h.2 p hq
    · simp only [List.mem_singleton] at hq
      rw [hq]

/-! ## Fold lemmas: the `for` loops writing into a fresh or existing dict -/

lemma dget_foldl_dinsert (k : Option String) (l : List CAP_Alert) :
    ∀ acc : AlertDict,
      dget k (l.foldl (fun d a => dinsert (aid a) a d) acc)
        = (l.reverse.find? (fun a => aid a == k)).or (dget k acc) := by
  induction l with
  | nil => intro acc; simp
  | cons a l ih =>
    intro acc
    rw [List.foldl_cons, ih, List.reverse_cons, List.find?_append, Option.or_assoc]
    congr 1
    rw [dget_dinsert]
    by_cases h : aid a = k
    · simp [List.find?_cons, h]
    · have hk : ¬k = aid a := fun hc => h hc.symm
      simp [List.find?_cons, h, hk]

lemma mem_dkeys_foldl_dinsert (k : Option String) (l : List CAP_Alert) :
    ∀ acc : AlertDict,
      k ∈ dkeys (l.foldl (fun d a => dinsert (aid a) a d) acc)
        ↔ k ∈ l.map aid ∨ k ∈ dkeys acc := by
  induction l with
  | nil => simp
  | cons a l ih =>
    intro acc
    rw [List.foldl_cons, ih, mem_dkeys_dinsert]
    simp only [List.map_cons, List.mem_cons]
    tauto

lemma WFdict_foldl_dinsert (l : List CAP_Alert) :
    ∀ acc : AlertDict, WFdict acc →
      WFdict (l.foldl (fun d a => dinsert (aid a) a d) acc) := by
  induction l with
  | nil => exact fun _ h => h
  | cons a l ih =>
    intro acc h
    rw [List.foldl_cons]
    exact ih _ (WFdict_dinsert a h)

lemma WFdict_foldl_dinsert_if (p : CAP_Alert → Bool) (l : List CAP_Alert) :
    ∀ acc : AlertDict, WFdict acc →
      WFdict (l.foldl (fun d a => if p a then dinsert (aid a) a d else d) acc) := by
  induction l with
  | nil => exact fun _ h => h
  | cons a l ih =>
    intro acc h
    rw [List.foldl_cons]
    by_cases hp : p a = true
    · rw [if_pos hp]
      exact ih _ (WFdict_dinsert a h)
    · rw [if_neg hp]
      exact ih _ h

lemma foldl_dinsert_if_eq (p : CAP_Alert → Bool) (l : List CAP_Alert) :
    ∀ acc : AlertDict, (l.map aid).Nodup → (∀ a ∈ l, aid a ∉ dkeys acc) →
      l.foldl (fun d a => if p a then dinsert (aid a) a d else d) acc
        = acc ++ (l.filter p).map (fun a => (aid a, a)) := by
  induction l with
  | nil => simp
  | cons a l ih =>
    intro acc hn hd
    have hn' : (l.map aid).Nodup := (List.nodup_cons.mp (by simpa using hn)).2
    have hna : aid a ∉ l.map aid := (List.nodup_cons.mp (by simpa using hn)).1
    rw [List.foldl_cons]
    by_cases hp : p a = true
    · rw [if_pos hp, dinsert_of_not_mem a (hd a (List.mem_cons_self a l))]
      rw [ih (acc ++ [(aid a, a)]) hn' ?_]
      · rw [List.filter_cons_of_pos hp]
        simp
      · intro b hb
        simp only [dkeys, List.map_append, List.mem_append]
        rintro (hba | hba)
        · exact hd b (List.mem_cons_of_mem a hb) hba
        · simp only [List.map_cons, List.map_nil, List.mem_singleton] at hba
          exact hna (hba ▸ List.mem_map_of_mem aid hb)
    · rw [if_neg hp, ih acc hn' (fun b hb => hd b (List.mem_cons_of_mem a hb))]
      rw [List.filter_cons_of_neg (by simpa using hp)]

lemma foldl_dinsert_eq (l : List CAP_Alert) :
    ∀ acc : AlertDict, (l.map aid).Nodup → (∀ a ∈ l, aid a ∉ dkeys acc) →
      l.foldl (fun d a => dinsert (aid a) a d) acc
        = acc ++ l.map (fun a => (aid a, a)) := by
  induction l with
  | nil => simp
  | cons a l ih =>
    intro acc hn hd
    have hn' : (l.map aid).Nodup := (List.nodup_cons.mp (by simpa using hn)).2
    have hna : aid a ∉ l.map aid := (List.nodup_cons.mp (by simpa using hn)).1
    rw [List.foldl_cons, dinsert_of_not_mem a (hd a (List.mem_cons_self a l))]
    rw [ih (acc ++ [(aid a, a)]) hn' ?_]
    · simp
    · intro b hb
      simp only [dkeys, List.map_append, List.mem_append]
      rintro (hba | hba)
      · exact hd b (List.mem_cons_of_mem a hb) hba
      · simp only [List.map_cons, List.map_nil, List.mem_singleton] at hba
        exact hna (hba ▸ List.mem_map_of_mem aid hb)

/-! ## Wellformed dictionaries and feeds -/

lemma dkeys_eq_map_aid {d : AlertDict} (h : WFdict d) :
    dkeys d = (dvalues d).map aid := by
  unfold dkeys dvalues
  rw [List.map_map]
  exact List.map_congr_left (fun p hp => h.2 p hp)

lemma values_aid_nodup {f : CAP_Feed} (h : FeedWF f) :
    (f.get_alerts.map aid).Nodup := by
  have h1 := h.1
  rwa [dkeys_eq_map_aid h] at h1

lemma map_aid_pair_eq_self {d : AlertDict} (h : WFdict d) :
    (dvalues d).map (fun a => (aid a, a)) = d := by
  unfold dvalues
  rw [List.map_map]
  conv_rhs => rw [← List.map_id d]
  apply List.map_congr_left
  intro p hp
  have hp1 := h.2 p hp
  simp [Function.comp, ← hp1]

lemma mk_of_list_get_alerts {f : CAP_Feed} (h : FeedWF f) :
    CAP_Feed.mk_of_list f.get_alerts = f := by
  unfold CAP_Feed.mk_of_list
  rw [foldl_dinsert_eq _ [] (values_aid_nodup h) (by simp [dkeys])]
  rw [List.nil_append]
  have := map_aid_pair_eq_self h
  unfold CAP_Feed.get_alerts
  rw [this]

lemma find_values_reverse_eq_dget {d : AlertDict} (h : WFdict d) (k : Option String) :
    (dvalues d).reverse.find? (fun a => aid a == k) = dget k d := by
  induction d with
  | nil => simp [dvalues, dget]
  | cons p d ih =>
    have hnodup := List.nodup_cons.mp h.1
    have hw : WFdict d := ⟨hnodup.2, fun q hq => h.2 q (List.mem_cons_of_mem p hq)⟩
    have hp1 : p.1 = aid p.2 := h.2 p (List.mem_cons_self p d)
    have hnotin : p.1 ∉ dkeys d := hnodup.1
    show (dvalues (p :: d)).reverse.find? (fun a => aid a == k) = dget k (p :: d)
    rw [show dvalues (p :: d) = p.2 :: dvalues d from rfl]
    rw [List.reverse_cons, List.find?_append, ih hw, dget_cons]
    by_cases hk : p.1 = k
    · have hdnone : dget k d = none := dget_eq_none.mpr (hk ▸ hnotin)
      rw [hdnone, if_pos hk]
      have : aid p.2 = k := hk ▸ hp1.symm
      simp [List.find?_cons, this]
    · rw [if_neg hk]
      have : ¬(aid p.2 = k) := fun hc => hk (hp1 ▸ hc)
      cases hd : dget k d with
      | none => simp [List.find?_cons, this]
      | some q => simp [Option.or]

lemma count_alerts_eq_zero {f : CAP_Feed} :
    f.count_alerts = 0 ↔ f.alerts = [] := by
  unfold CAP_Feed.count_alerts dvalues
  simp

lemma FeedWF_mk_of_list (l : List CAP_Alert) : FeedWF (CAP_Feed.mk_of_list l) :=
  WFdict_foldl_dinsert l [] ⟨List.nodup_nil, by simp⟩

/-! ## Claim theorems -/

/-- C2: constructing a Feed from a list of Alerts indexes them by their
identifier field, later list entries overwriting earlier ones with the same
identifier (lookup finds the last list entry with that identifier); in
particular two Alerts sharing an identifier yield a Feed with `count_alerts`
1 holding the later entry. -/
theorem C2_construct_dedups (l : List CAP_Alert) (a b : CAP_Alert)
    (hab : aid a = aid b) :
    (∀ k, dget k (CAP_Feed.mk_of_list l).alerts
      = l.reverse.find? (fun x => aid x == k))
    ∧ (CAP_Feed.mk_of_list [a, b]).count_alerts = 1
    ∧ (CAP_Feed.mk_of_list [a, b]).get_alerts = [b] := by
  have hpair : (CAP_Feed.mk_of_list [a, b]).alerts = [(aid b, b)] := by
    show dinsert (aid b) b (dinsert (aid a) a []) = [(aid b, b)]
    rw [dinsert_of_not_mem a (by simp [dkeys])]
    rw [dinsert_of_mem b (by simp [dkeys, hab])]
    simp [hab]
  refine ⟨fun k => ?_, ?_, ?_⟩
  · show dget k (l.foldl (fun d a => dinsert (aid a) a d) []) = _
    rw [dget_foldl_dinsert]
    simp [dget]
  · unfold CAP_Feed.count_alerts
    rw [hpair]
    simp [dvalues]
  · unfold CAP_Feed.get_alerts
    rw [hpair]
    simp [dvalues]

/-- Witness for C2: two concrete alerts sharing identifier `X`. -/
theorem C2_construct_dedups_witness :
    (CAP_Feed.mk_of_list [wa, wb]).count_alerts = 1
    ∧ (CAP_Feed.mk_of_list [wa, wb]).get_alerts = [wb] :=
  ⟨(C2_construct_dedups [] wa wb (by decide)).2.1,
   (C2_construct_dedups [] wa wb (by decide)).2.2⟩

/-- C5: on a Feed holding zero alerts, `categorize_alerts`, `filter_alerts`
and `filter_by_location` all return the absent signal `None`, whatever the
arguments. -/
theorem C5_empty_feed_none (f : CAP_Feed) (h : f.count_alerts = 0)
    (field_name : String) (values locations : List String) (ntn : String)
    (store : Bool) :
    f.categorize_alerts field_name = none
    ∧ (f.filter_alerts field_name values store).1 = none
    ∧ (f.filter_by_location locations ntn store).1 = none := by
  unfold CAP_Feed.categorize_alerts CAP_Feed.filter_alerts CAP_Feed.filter_by_location
  simp [h]

/-- Witness for C5 at the concrete empty feed. -/
theorem C5_empty_feed_none_witness :
    wEmpty.categorize_alerts "urgency" = none
    ∧ (wEmpty.filter_alerts "urgency" ["Immediate"] false).1 = none
    ∧ (wEmpty.filter_by_location ["z1"] "UGC" false).1 = none :=
  C5_empty_feed_none wEmpty (by decide) "urgency" ["Immediate"] ["z1"] "UGC" false

/-- C9: on a non-empty Feed, `filter_alerts` and `filter_by_location` leave
the internal collection unchanged when `store` is unset, replace it with
exactly the filtered set when `store` is set, and in both cases return the
filtered alerts. -/
theorem C9_store_frame (f : CAP_Feed) (h : f.count_alerts ≠ 0)
    (field_name : String) (values locations : List String) (ntn : String) :
    (f.filter_alerts field_name values false).2 = f
    ∧ (f.filter_by_location locations ntn false).2 = f
    ∧ (f.filter_alerts field_name values true).1
        = (f.filter_alerts field_name values false).1
    ∧ (f.filter_by_location locations ntn true).1
        = (f.filter_by_location locations ntn false).1
    ∧ (f.filter_alerts field_name values true).1
        = some ((f.filter_alerts field_name values true).2.get_alerts)
    ∧ (f.filter_by_location locations ntn true).1
        = some ((f.filter_by_location locations ntn true).2.get_alerts) := by
  have hbeq : (f.count_alerts == 0) = false := by simpa using h
  unfold CAP_Feed.filter_alerts CAP_Feed.filter_by_location
  simp [h, hbeq, CAP_Feed.get_alerts]

/-- Witness for C9 at the concrete non-empty feed. -/
theorem C9_store_frame_witness :
    (wFeed.filter_alerts "urgency" ["Immediate"] false).2 = wFeed
    ∧ (wFeed.filter_by_location ["z1"] "UGC" false).2 = wFeed
    ∧ (wFeed.filter_alerts "urgency" ["Immediate"] true).1
        = (wFeed.filter_alerts "urgency" ["Immediate"] false).1
    ∧ (wFeed.filter_by_location ["z1"] "UGC" true).1
        = (wFeed.filter_by_location ["z1"] "UGC" false).1
    ∧ (wFeed.filter_alerts "urgency" ["Immediate"] true).1
        = some ((wFeed.filter_alerts "urgency" ["Immediate"] true).2.get_alerts)
    ∧ (wFeed.filter_by_location ["z1"] "UGC" true).1
        = some ((wFeed.filter_by_location ["z1"] "UGC" true).2.get_alerts) :=
  C9_store_frame wFeed (by decide) "urgency" ["Immediate"] ["z1"] "UGC"

/-- C8: every operation building or mutating the internal collection keeps the
invariant that keys are pairwise distinct and each entry is stored under its
own alert's identifier field. -/
theorem C8_invariant_preserved :
    (∀ l : List CAP_Alert, FeedWF (CAP_Feed.mk_of_list l))
    ∧ (∀ a b : CAP_Feed, FeedWF (a.add b))
    ∧ (∀ a b : CAP_Feed, FeedWF a → FeedWF (a.iadd b))
    ∧ (∀ (f : CAP_Feed) (field_name : String) (values : List String),
        FeedWF f → FeedWF ((f.filter_alerts field_name values true).2))
    ∧ (∀ (f : CAP_Feed) (locations : List String) (ntn : String),
        FeedWF f → FeedWF ((f.filter_by_location locations ntn true).2)) := by
  refine ⟨FeedWF_mk_of_list, fun a b => FeedWF_mk_of_list _, fun a b h => ?_, ?_, ?_⟩
  · exact WFdict_foldl_dinsert _ _ h
  · intro f field_name values h
    unfold CAP_Feed.filter_alerts
    by_cases hc : f.count_alerts ≠ 0
    · rw [if_pos hc]
      exact WFdict_foldl_dinsert_if _ _ [] ⟨List.nodup_nil, by simp⟩
    · rw [if_neg hc]
      exact h
  · intro f locations ntn h
    unfold CAP_Feed.filter_by_location
    by_cases hc : (f.count_alerts == 0) = true
    · rw [if_pos hc]
      exact h
    · rw [if_neg hc]
      exact WFdict_foldl_dinsert_if _ _ [] ⟨List.nodup_nil, by simp⟩

/-- Witness for C8 at concrete feeds. -/
theorem C8_invariant_preserved_witness :
    FeedWF (CAP_Feed.mk_of_list [wa, wc])
    ∧ FeedWF (wFeed.iadd wFeedB)
    ∧ FeedWF ((wFeed.filter_alerts "urgency" ["Immediate"] true).2)
    ∧ FeedWF ((wFeed.filter_by_location ["z1"] "UGC" true).2) :=
  ⟨C8_invariant_preserved.1 [wa, wc],
   C8_invariant_preserved.2.2.1 wFeed wFeedB (by decide),
   C8_invariant_preserved.2.2.2.1 wFeed "urgency" ["Immediate"] (by decide),
   C8_invariant_preserved.2.2.2.2 wFeed ["z1"] "UGC" (by decide)⟩

/-- C7: rebuilding a Feed from `get_alerts()` preserves `count_alerts` and the
identifier set (on wellformed feeds the round trip is the identity). -/
theorem C7_roundtrip (f : CAP_Feed) (h : FeedWF f) :
    (CAP_Feed.mk_of_list f.get_alerts).count_alerts = f.count_alerts
    ∧ ∀ k, k ∈ dkeys (CAP_Feed.mk_of_list f.get_alerts).alerts
        ↔ k ∈ dkeys f.alerts := by
  rw [mk_of_list_get_alerts h]
  exact ⟨rfl, fun _ => Iff.rfl⟩

/-- Witness for C7 at the concrete non-empty feed. -/
theorem C7_roundtrip_witness :
    (CAP_Feed.mk_of_list wFeed.get_alerts).count_alerts = wFeed.count_alerts
    ∧ (some "X" ∈ dkeys (CAP_Feed.mk_of_list wFeed.get_alerts).alerts
        ↔ some "X" ∈ dkeys wFeed.alerts) :=
  ⟨(C7_roundtrip wFeed (by decide)).1,
   (C7_roundtrip wFeed (by decide)).2 (some "X")⟩

lemma dvalues_map_pair (l : List CAP_Alert) :
    dvalues (l.map (fun a => (aid a, a))) = l := by
  unfold dvalues
  rw [List.map_map, show (Prod.snd ∘ fun a : CAP_Alert => (aid a, a)) = id from rfl,
    List.map_id]

lemma memValues_iff (o : Option String) (values : List String) :
    memValues o values = true ↔ ∃ v, o = some v ∧ v ∈ values := by
  cases o <;> simp [memValues]

lemma filter_alerts_fst (f : CAP_Feed) (field_name : String) (values : List String)
    (store : Bool) (hwf : FeedWF f) (h : f.count_alerts ≠ 0) :
    (f.filter_alerts field_name values store).1
      = some (f.get_alerts.filter
          (fun a => memValues (a.get_field field_name) values)) := by
  unfold CAP_Feed.filter_alerts
  rw [if_pos h]
  show some (dvalues ((dvalues f.alerts).foldl _ [])) = _
  rw [foldl_dinsert_if_eq (fun e => memValues (e.get_field field_name) values)
    (dvalues f.alerts) []
    (show ((dvalues f.alerts).map aid).Nodup from values_aid_nodup hwf)
    (by simp [dkeys])]
  rw [List.nil_append, dvalues_map_pair]
  rfl

/-- C6: on a non-empty wellformed Feed, `filter_alerts(field, values)` returns
exactly the alerts whose field value is a member of `values`; with `values`
empty it returns the empty list. -/
theorem C6_filter_alerts_exact (f : CAP_Feed) (field_name : String)
    (values : List String) (hwf : FeedWF f) (h : f.count_alerts ≠ 0) :
    (f.filter_alerts field_name values false).1
      = some (f.get_alerts.filter
          (fun a => memValues (a.get_field field_name) values))
    ∧ (∀ a, a ∈ f.get_alerts.filter
          (fun a => memValues (a.get_field field_name) values)
        ↔ a ∈ f.get_alerts
          ∧ ∃ v, a.get_field field_name = some v ∧ v ∈ values)
    ∧ (f.filter_alerts field_name [] false).1 = some [] := by
  refine ⟨filter_alerts_fst f field_name values false hwf h, ?_, ?_⟩
  · intro a
    rw [List.mem_filter, memValues_iff]
  · rw [filter_alerts_fst f field_name [] false hwf h]
    congr 1
    rw [List.filter_eq_nil_iff]
    intro a _
    simp [memValues_iff]

/-- Witness for C6 at the concrete non-empty feed. -/
theorem C6_filter_alerts_exact_witness :
    (wFeed.filter_alerts "urgency" ["Immediate"] false).1
      = some (wFeed.get_alerts.filter
          (fun a => memValues (a.get_field "urgency") ["Immediate"]))
    ∧ (wa ∈ wFeed.get_alerts.filter
          (fun a => memValues (a.get_field "urgency") ["Immediate"])
        ↔ wa ∈ wFeed.get_alerts
          ∧ ∃ v, wa.get_field "urgency" = some v ∧ v ∈ ["Immediate"])
    ∧ (wFeed.filter_alerts "urgency" [] false).1 = some [] :=
  ⟨(C6_filter_alerts_exact wFeed "urgency" ["Immediate"] (by decide) (by decide)).1,
   (C6_filter_alerts_exact wFeed "urgency" ["Immediate"] (by decide) (by decide)).2.1 wa,
   (C6_filter_alerts_exact wFeed "urgency" ["Immediate"] (by decide) (by decide)).2.2⟩

lemma coversAll_iff (a : CAP_Alert) (ntn : String) (locations : List String) :
    coversAll a ntn locations = true ↔ ∀ c ∈ locations, c ∈ a.get_geocode ntn := by
  simp [coversAll, List.all_eq_true]

lemma geoMatches_eq_length_iff (a : CAP_Alert) (ntn : String)
    (locations : List String) (hnd : locations.Nodup) :
    geoMatches a ntn locations = locations.length
      ↔ coversAll a ntn locations = true := by
  have hg : (a.get_geocode ntn).dedup.Nodup := List.nodup_dedup _
  have hSnd : ((a.get_geocode ntn).dedup.filter
      (fun c => locations.contains c)).Nodup := hg.filter _
  have hSsub : ((a.get_geocode ntn).dedup.filter
      (fun c => locations.contains c)).toFinset ⊆ locations.toFinset := by
    intro c hc
    rw [List.mem_toFinset] at hc ⊢
    have := List.mem_filter.mp hc
    simpa using this.2
  have hScard := List.toFinset_card_of_nodup hSnd
  have hLcard := List.toFinset_card_of_nodup hnd
  unfold geoMatches
  rw [coversAll_iff]
  constructor
  · intro h
    have hEq : ((a.get_geocode ntn).dedup.filter
        (fun c => locations.contains c)).toFinset = locations.toFinset :=
      Finset.eq_of_subset_of_card_le hSsub (by rw [hScard, hLcard, h])
    intro c hc
    have hcS : c ∈ (a.get_geocode ntn).dedup.filter (fun c => locations.contains c) := by
      rw [← List.mem_toFinset, ← hEq, List.mem_toFinset] at hc
      exact hc
    exact List.mem_dedup.mp (List.mem_filter.mp hcS).1
  · intro h
    have hsub2 : locations.toFinset ⊆ ((a.get_geocode ntn).dedup.filter
        (fun c => locations.contains c)).toFinset := by
      intro c hc
      rw [List.mem_toFinset] at hc ⊢
      exact List.mem_filter.mpr ⟨List.mem_dedup.mpr (h c hc), by simpa using hc⟩
    have hEq := Finset.Subset.antisymm hSsub hsub2
    rw [← hScard, hEq, hLcard]

/-- C1 refuted at a concrete input: the alert `wc` has geocode set `{z1}`
under `UGC`, which contains every code of the duplicated location list
`["z1", "z1"]`, and the feed holding it is non-empty — yet
`filter_by_location(["z1", "z1"])` returns the empty list, because the
intersection has one element while `len(locations)` is 2. -/
theorem C1_counterexample :
    (∀ c ∈ ["z1", "z1"], c ∈ wc.get_geocode "UGC")
    ∧ (CAP_Feed.mk_of_list [wc]).count_alerts ≠ 0
    ∧ wc ∈ (CAP_Feed.mk_of_list [wc]).get_alerts
    ∧ ((CAP_Feed.mk_of_list [wc]).filter_by_location ["z1", "z1"] "UGC" false).1
        = some [] := by decide

/-- C1 amended: for a duplicate-free location list (the counterexample shows
duplicated lists break the claim), on a non-empty wellformed Feed
`filter_by_location` returns exactly the alerts whose geocode set under the
notation contains every requested code; membership is decided by comparing
the intersection size with `len(locations)`. -/
theorem C1_filter_by_location_amended (f : CAP_Feed) (ntn : String)
    (locations : List String) (hwf : FeedWF f) (h : f.count_alerts ≠ 0)
    (hnd : locations.Nodup) :
    (f.filter_by_location locations ntn false).1
      = some (f.get_alerts.filter (fun a => coversAll a ntn locations))
    ∧ ∀ a, a ∈ f.get_alerts.filter (fun a => coversAll a ntn locations)
        ↔ a ∈ f.get_alerts ∧ ∀ c ∈ locations, c ∈ a.get_geocode ntn := by
  have hbeq : (f.count_alerts == 0) = false := by simpa using h
  constructor
  · unfold CAP_Feed.filter_by_location
    rw [if_neg (by simp [hbeq])]
    show some (dvalues (f.get_alerts.foldl _ [])) = _
    rw [foldl_dinsert_if_eq
      (fun a => geoMatches a ntn locations == locations.length)
      f.get_alerts []
      (show ((f.get_alerts).map aid).Nodup from values_aid_nodup hwf)
      (by simp [dkeys])]
    rw [List.nil_append, dvalues_map_pair]
    congr 1
    apply List.filter_congr
    intro a _
    apply Bool.coe_iff_coe.mp
    rw [beq_iff_eq]
    exact geoMatches_eq_length_iff a ntn locations hnd
  · intro a
    rw [List.mem_filter, coversAll_iff]

/-- Witness for the amended C1 at concrete inputs: `wa` (zones `z1`, `z2`)
is kept by `filter_by_location(["z1", "z2"])` on the concrete feed. -/
theorem C1_filter_by_location_amended_witness :
    (wFeed.filter_by_location ["z1", "z2"] "UGC" false).1
      = some (wFeed.get_alerts.filter (fun a => coversAll a "UGC" ["z1", "z2"]))
    ∧ (wa ∈ wFeed.get_alerts.filter (fun a => coversAll a "UGC" ["z1", "z2"])
        ↔ wa ∈ wFeed.get_alerts ∧ ∀ c ∈ ["z1", "z2"], c ∈ wa.get_geocode "UGC") :=
  ⟨(C1_filter_by_location_amended wFeed "UGC" ["z1", "z2"]
      (by decide) (by decide) (by decide)).1,
   (C1_filter_by_location_amended wFeed "UGC" ["z1", "z2"]
      (by decide) (by decide) (by decide)).2 wa⟩

/-- C3: `+` (`add`) and `+=` (`iadd`) produce a Feed whose identifier set is
the union of both operands' identifier sets — hence the same identifier set
for `a+b` and `b+a` — and on any identifier held by both operands the
right-hand operand's alert is the one held in the result. -/
theorem C3_combine_identifiers (a b : CAP_Feed) (hwa : FeedWF a) (hwb : FeedWF b) :
    (∀ k, k ∈ dkeys (a.add b).alerts ↔ k ∈ dkeys a.alerts ∨ k ∈ dkeys b.alerts)
    ∧ (∀ k, k ∈ dkeys (a.iadd b).alerts ↔ k ∈ dkeys a.alerts ∨ k ∈ dkeys b.alerts)
    ∧ (∀ k, k ∈ dkeys (a.add b).alerts ↔ k ∈ dkeys (b.add a).alerts)
    ∧ (∀ k, k ∈ dkeys a.alerts → k ∈ dkeys b.alerts →
        dget k (a.add b).alerts = dget k b.alerts)
    ∧ (∀ k, k ∈ dkeys a.alerts → k ∈ dkeys b.alerts →
        dget k (a.iadd b).alerts = dget k b.alerts) := by
  have hmapa : (dvalues a.alerts).map aid = dkeys a.alerts := (dkeys_eq_map_aid hwa).symm
  have hmapb : (dvalues b.alerts).map aid = dkeys b.alerts := (dkeys_eq_map_aid hwb).symm
  have hAddMem : ∀ (x y : CAP_Feed) (k : Option String),
      k ∈ dkeys (x.add y).alerts
        ↔ k ∈ (dvalues x.alerts).map aid ∨ k ∈ (dvalues y.alerts).map aid := by
    intro x y k
    show k ∈ dkeys ((dvalues x.alerts ++ dvalues y.alerts).foldl
      (fun d z => dinsert (aid z) z d) []) ↔ _
    rw [mem_dkeys_foldl_dinsert]
    simp [dkeys]
  refine ⟨?_, ?_, ?_, ?_, ?_⟩
  · intro k
    rw [hAddMem a b k, hmapa, hmapb]
  · intro k
    show k ∈ dkeys ((dvalues b.alerts).foldl (fun d z => dinsert (aid z) z d) a.alerts)
      ↔ _
    rw [mem_dkeys_foldl_dinsert, hmapb]
    tauto
  · intro k
    rw [hAddMem a b k, hAddMem b a k]
    tauto
  · intro k _ hkb
    show dget k ((dvalues a.alerts ++ dvalues b.alerts).foldl
      (fun d z => dinsert (aid z) z d) []) = _
    rw [dget_foldl_dinsert, List.reverse_append, List.find?_append]
    rw [find_values_reverse_eq_dget hwb]
    cases hd : dget k b.alerts with
    | none => exact absurd (dget_eq_none.mp hd) (by simpa using hkb)
    | some q => simp [hd]
  · intro k _ hkb
    show dget k ((dvalues b.alerts).foldl (fun d z => dinsert (aid z) z d) a.alerts) = _
    rw [dget_foldl_dinsert, find_values_reverse_eq_dget hwb]
    cases hd : dget k b.alerts with
    | none => exact absurd (dget_eq_none.mp hd) (by simpa using hkb)
    | some q => simp [hd]

/-- Witness for C3 at concrete feeds sharing identifier `X`. -/
theorem C3_combine_identifiers_witness :
    (some "X" ∈ dkeys (wFeed.add wFeedB).alerts
      ↔ some "X" ∈ dkeys wFeed.alerts ∨ some "X" ∈ dkeys wFeedB.alerts)
    ∧ (some "Y" ∈ dkeys (wFeed.add wFeedB).alerts
      ↔ some "Y" ∈ dkeys (wFeedB.add wFeed).alerts)
    ∧ dget (some "X") (wFeed.add wFeedB).alerts = dget (some "X") wFeedB.alerts
    ∧ dget (some "X") (wFeed.iadd wFeedB).alerts = dget (some "X") wFeedB.alerts :=
  ⟨(C3_combine_identifiers wFeed wFeedB (by decide) (by decide)).1 (some "X"),
   (C3_combine_identifiers wFeed wFeedB (by decide) (by decide)).2.2.1 (some "Y"),
   (C3_combine_identifiers wFeed wFeedB (by decide) (by decide)).2.2.2.1 (some "X")
     (by decide) (by decide),
   (C3_combine_identifiers wFeed wFeedB (by decide) (by decide)).2.2.2.2 (some "X")
     (by decide) (by decide)⟩

/-! ## The `requests` grouping dict of `get_zones` -/

lemma sgappend_of_not_mem {k : String} (v : String) {d : List (String × List String)}
    (h : k ∉ d.map Prod.fst) : sgappend k v d = d ++ [(k, [v])] := by
  unfold sgappend
  refine if_neg (fun hc => h ?_)
  simp only [List.any_eq_true, beq_iff_eq] at hc
  obtain ⟨p, hp, hpk⟩ := hc
  exact List.mem_map.mpr ⟨p, hp, hpk⟩

lemma sgappend_of_mem {k : String} (v : String) {d : List (String × List String)}
    (h : k ∈ d.map Prod.fst) :
    sgappend k v d = d.map (fun p => if p.1 == k then (p.1, p.2 ++ [v]) else p) := by
  unfold sgappend
  refine if_pos ?_
  simp only [List.any_eq_true, beq_iff_eq]
  obtain ⟨p, hp, hpk⟩ := List.mem_map.mp h
  exact ⟨p, hp, hpk⟩

lemma keys_sgappend (k v : String) (d : List (String × List String)) :
    (sgappend k v d).map Prod.fst
      = if k ∈ d.map Prod.fst then d.map Prod.fst else d.map Prod.fst ++ [k] := by
  by_cases hm : k ∈ d.map Prod.fst
  · rw [sgappend_of_mem v hm, if_pos hm, List.map_map]
    apply List.map_congr_left
    intro p _
    by_cases hpk : p.1 = k <;> simp [Function.comp, hpk]
  · rw [sgappend_of_not_mem v hm, if_neg hm]
    simp

lemma keys_zfold_nodup (zs : List String) :
    ∀ acc : List (String × List String), (acc.map Prod.fst).Nodup →
      ((zs.foldl (fun d z => sgappend (stateOf z) z d) acc).map Prod.fst).Nodup := by
  induction zs with
  | nil => exact fun _ h => h
  | cons z zs ih =>
    intro acc h
    rw [List.foldl_cons]
    apply ih
    rw [keys_sgappend]
    by_cases hm : stateOf z ∈ acc.map Prod.fst
    · rwa [if_pos hm]
    · rw [if_neg hm]
      simp [List.nodup_append, h, hm]

lemma mem_keys_zfold (s : String) (zs : List String) :
    ∀ acc : List (String × List String),
      s ∈ (zs.foldl (fun d z => sgappend (stateOf z) z d) acc).map Prod.fst
        ↔ s ∈ zs.map stateOf ∨ s ∈ acc.map Prod.fst := by
  induction zs with
  | nil => simp
  | cons z zs ih =>
    intro acc
    rw [List.foldl_cons, ih, keys_sgappend]
    by_cases hm : stateOf z ∈ acc.map Prod.fst
    · rw [if_pos hm]
      simp only [List.map_cons, List.mem_cons]
      constructor
      · rintro (h | h)
        · exact Or.inl (Or.inr h)
        · exact Or.inr h
      · rintro ((rfl | h) | h)
        · exact Or.inr hm
        · exact Or.inl h
        · exact Or.inr h
    · rw [if_neg hm]
      simp only [List.map_cons, List.mem_cons, List.mem_append, List.mem_singleton]
      tauto

lemma zfold_group_state (zs : List String) :
    ∀ acc : List (String × List String),
      (∀ p ∈ acc, ∀ z ∈ p.2, stateOf z = p.1) →
      ∀ p ∈ zs.foldl (fun d z => sgappend (stateOf z) z d) acc,
        ∀ z ∈ p.2, stateOf z = p.1 := by
  induction zs with
  | nil => exact fun _ h => h
  | cons z zs ih =>
    intro acc h
    rw [List.foldl_cons]
    apply ih
    intro p hp w hw
    by_cases hm : stateOf z ∈ acc.map Prod.fst
    · rw [sgappend_of_mem z hm] at hp
      obtain ⟨q, hq, hqp⟩ := List.mem_map.mp hp
      by_cases hqk : q.1 = stateOf z
      · rw [if_pos (by simpa using hqk)] at hqp
        rw [← hqp] at hw ⊢
        rcases List.mem_append.mp hw with hw' | hw'
        · exact h q hq w hw'
        · simp only [List.mem_singleton] at hw'
          rw [hw', hqk]
      · rw [if_neg (by simpa using hqk)] at hqp
        rw [← hqp] at hw ⊢
        exact h q hq w hw
    · rw [sgappend_of_not_mem z hm] at hp
      rcases List.mem_append.mp hp with hq | hq
      · exact h p hq w hw
      · simp only [List.mem_singleton] at hq
        rw [hq] at hw ⊢
        simp only [List.mem_singleton] at hw
        rw [hw]

lemma zfold_group_ne_nil (zs : List String) :
    ∀ acc : List (String × List String), (∀ p ∈ acc, p.2 ≠ []) →
      ∀ p ∈ zs.foldl (fun d z => sgappend (stateOf z) z d) acc, p.2 ≠ [] := by
  induction zs with
  | nil => exact fun _ h => h
  | cons z zs ih =>
    intro acc h
    rw [List.foldl_cons]
    apply ih
    intro p hp
    by_cases hm : stateOf z ∈ acc.map Prod.fst
    · rw [sgappend_of_mem z hm] at hp
      obtain ⟨q, hq, hqp⟩ := List.mem_map.mp hp
      by_cases hqk : q.1 = stateOf z
      · rw [if_pos (by simpa using hqk)] at hqp
        rw [← hqp]
        simp
      · rw [if_neg (by simpa using hqk)] at hqp
        rw [← hqp]
        exact h q hq
    · rw [sgappend_of_not_mem z hm] at hp
      rcases List.mem_append.mp hp with hq | hq
      · exact h p hq
      · simp only [List.mem_singleton] at hq
        rw [hq]
        simp

lemma mem_flat_zfold (w : String) (zs : List String) :
    ∀ acc : List (String × List String),
      w ∈ (zs.foldl (fun d z => sgappend (stateOf z) z d) acc).flatMap Prod.snd
        ↔ w ∈ zs ∨ w ∈ acc.flatMap Prod.snd := by
  induction zs with
  | nil => simp
  | cons z zs ih =>
    intro acc
    rw [List.foldl_cons, ih]
    have hstep : w ∈ (sgappend (stateOf z) z acc).flatMap Prod.snd
        ↔ w = z ∨ w ∈ acc.flatMap Prod.snd := by
      by_cases hm : stateOf z ∈ acc.map Prod.fst
      · rw [sgappend_of_mem z hm]
        simp only [List.mem_flatMap, List.mem_map]
        constructor
        · rintro ⟨p, ⟨q, hq, hqp⟩, hwp⟩
          by_cases hqk : q.1 = stateOf z
          · rw [if_pos (by simpa using hqk)] at hqp
            rw [← hqp] at hwp
            rcases List.mem_append.mp hwp with hw' | hw'
            · exact Or.inr ⟨q, hq, hw'⟩
            · simp only [List.mem_singleton] at hw'
              exact Or.inl hw'
          · rw [if_neg (by simpa using hqk)] at hqp
            rw [← hqp] at hwp
            exact Or.inr ⟨q, hq, hwp⟩
        · rintro (rfl | ⟨q, hq, hwq⟩)
          · obtain ⟨q, hq, hqk⟩ := List.mem_map.mp hm
            refine ⟨(q.1, q.2 ++ [w]), ⟨q, hq, ?_⟩, by simp⟩
            rw [if_pos (by simpa using hqk)]
          · by_cases hqk : q.1 = stateOf z
            · refine ⟨(q.1, q.2 ++ [z]), ⟨q, hq, ?_⟩, by simp [hwq]⟩
              rw [if_pos (by simpa using hqk)]
            · refine ⟨q, ⟨q, hq, ?_⟩, hwq⟩
              rw [if_neg (by simpa using hqk)]
      · rw [sgappend_of_not_mem z hm]
        simp only [List.flatMap_append]
        simp [or_comm]
    rw [hstep]
    simp only [List.mem_cons]
    tauto

/-! ## The fetching loop of `get_zones` -/

lemma filter_by_location_fst_some {f : CAP_Feed} (h : f.count_alerts ≠ 0) (z : String) :
    (f.filter_by_location [z] "UGC" false).1 = some (fblList f z) := by
  have hbeq : ¬((f.count_alerts == 0) = true) := by simpa using h
  unfold fblList CAP_Feed.filter_by_location
  rw [if_neg hbeq]
  rfl

lemma filter_by_location_fst_none {f : CAP_Feed} (h : f.count_alerts = 0)
    (locations : List String) (ntn : String) (store : Bool) :
    (f.filter_by_location locations ntn store).1 = none := by
  unfold CAP_Feed.filter_by_location
  rw [if_pos (by simp [h])]

lemma inner_zone_fold_some {f : CAP_Feed} (h : f.count_alerts ≠ 0)
    (zones : List String) :
    ∀ acc : List CAP_Alert,
      zones.foldlM
        (fun l z => ((f.filter_by_location [z] "UGC" false).1).map (l ++ ·)) acc
        = some (acc ++ zones.flatMap (fblList f)) := by
  induction zones with
  | nil => intro acc; simp
  | cons z zones ih =>
    intro acc
    rw [List.foldlM_cons, filter_by_location_fst_some h z]
    show zones.foldlM _ (acc ++ fblList f z) = _
    rw [ih (acc ++ fblList f z)]
    simp [List.flatMap_cons, List.append_assoc]

lemma inner_zone_fold_none {f : CAP_Feed} (h : f.count_alerts = 0)
    {zones : List String} (hz : zones ≠ []) (acc : List CAP_Alert) :
    zones.foldlM
      (fun l z => ((f.filter_by_location [z] "UGC" false).1).map (l ++ ·)) acc
      = none := by
  cases zones with
  | nil => exact absurd rfl hz
  | cons z zones =>
    rw [List.foldlM_cons, filter_by_location_fst_none h [z] "UGC" false]
    rfl

lemma outer_state_fold_some (fetch : String → CAP_Feed)
    (rs : List (String × List String))
    (h : ∀ p ∈ rs, (fetch p.1).count_alerts ≠ 0) :
    ∀ acc : List CAP_Alert,
      rs.foldlM
        (fun (alerts : List CAP_Alert) (p : String × List String) =>
          let state_alerts := fetch p.1
          p.2.foldlM
            (fun l z => ((state_alerts.filter_by_location [z] "UGC" false).1).map (l ++ ·))
            alerts)
        acc
      = some (acc ++ rs.flatMap (fun p => p.2.flatMap (fblList (fetch p.1)))) := by
  induction rs with
  | nil => intro acc; simp
  | cons p rs ih =>
    intro acc
    rw [List.foldlM_cons]
    have hhead := inner_zone_fold_some (h p (List.mem_cons_self p rs)) p.2 acc
    show Option.bind (p.2.foldlM _ acc) _ = _
    rw [hhead]
    show rs.foldlM _ (acc ++ p.2.flatMap (fblList (fetch p.1))) = _
    rw [ih (fun q hq => h q (List.mem_cons_of_mem p hq))]
    simp [List.flatMap_cons, List.append_assoc]

lemma outer_state_fold_none (fetch : String → CAP_Feed)
    (rs : List (String × List String))
    (hne : ∀ p ∈ rs, p.2 ≠ [])
    (h : ∃ p ∈ rs, (fetch p.1).count_alerts = 0) :
    ∀ acc : List CAP_Alert,
      rs.foldlM
        (fun (alerts : List CAP_Alert) (p : String × List String) =>
          let state_alerts := fetch p.1
          p.2.foldlM
            (fun l z => ((state_alerts.filter_by_location [z] "UGC" false).1).map (l ++ ·))
            alerts)
        acc
      = none := by
  induction rs with
  | nil => simp at h
  | cons p rs ih =>
    intro acc
    rw [List.foldlM_cons]
    by_cases hp : (fetch p.1).count_alerts = 0
    · have := inner_zone_fold_none hp (hne p (List.mem_cons_self p rs)) acc
      show Option.bind (p.2.foldlM _ acc) _ = _
      rw [this]
      rfl
    · obtain ⟨q, hq, hqc⟩ := h
      rcases List.mem_cons.mp hq with rfl | hq'
      · exact absurd hqc hp
      · have hhead := inner_zone_fold_some hp p.2 acc
        show Option.bind (p.2.foldlM _ acc) _ = _
        rw [hhead]
        show rs.foldlM _ (acc ++ p.2.flatMap (fblList (fetch p.1))) = _
        exact ih (fun r hr => hne r (List.mem_cons_of_mem p hr)) ⟨q, hq', hqc⟩ _

/-- C4: `get_zones` groups the zone codes by their lowercased two-character
state code, performs one whole-state fetch per distinct state code (the keys
of `requests`, independent of the fetched contents, so a state contributing
zero matching zones is still fetched), filters each fetched state feed by the
requested zones under `UGC` notation, and returns the de-duplicated union
(`mk_of_list` of the concatenation) of the per-zone filtered results. -/
theorem C4_get_zones_fetch_union (fetch : String → CAP_Feed)
    (zone_codes : List String)
    (h : ∀ s ∈ getZonesFetches zone_codes, (fetch s).count_alerts ≠ 0) :
    (getZonesFetches zone_codes).Nodup
    ∧ (∀ s, s ∈ getZonesFetches zone_codes ↔ s ∈ zone_codes.map stateOf)
    ∧ (∀ p ∈ zoneRequests zone_codes, ∀ z ∈ p.2, stateOf z = p.1)
    ∧ (∀ z, z ∈ (zoneRequests zone_codes).flatMap Prod.snd ↔ z ∈ zone_codes)
    ∧ CAP_Feed.get_zones fetch zone_codes
        = some (CAP_Feed.mk_of_list ((zoneRequests zone_codes).flatMap
            (fun p => p.2.flatMap (fblList (fetch p.1))))) := by
  refine ⟨?_, ?_, ?_, ?_, ?_⟩
  · exact keys_zfold_nodup zone_codes [] (by simp)
  · intro s
    show s ∈ (zoneRequests zone_codes).map Prod.fst ↔ _
    unfold zoneRequests
    rw [mem_keys_zfold]
    simp
  · exact zfold_group_state zone_codes [] (by simp)
  · intro z
    have hm := mem_flat_zfold z zone_codes []
    simpa using hm
  · unfold CAP_Feed.get_zones
    rw [outer_state_fold_some fetch (zoneRequests zone_codes)
      (fun p hp => h p.1 (List.mem_map_of_mem Prod.fst hp)) []]
    simp

/-- Witness for C4: `get_zones(['MIZ001', 'OHZ002'])` against a constant
non-empty oracle performs exactly the two fetches `mi`, `oh`. -/
theorem C4_get_zones_fetch_union_witness :
    (getZonesFetches ["MIZ001", "OHZ002"]).Nodup
    ∧ (getZonesFetches ["MIZ001", "OHZ002"]).length = 2
    ∧ ("mi" ∈ getZonesFetches ["MIZ001", "OHZ002"]
        ↔ "mi" ∈ (["MIZ001", "OHZ002"] : List String).map stateOf)
    ∧ CAP_Feed.get_zones wFetch ["MIZ001", "OHZ002"]
        = some (CAP_Feed.mk_of_list ((zoneRequests ["MIZ001", "OHZ002"]).flatMap
            (fun p => p.2.flatMap (fblList (wFetch p.1))))) :=
  ⟨(C4_get_zones_fetch_union wFetch ["MIZ001", "OHZ002"] (by decide)).1,
   by decide,
   (C4_get_zones_fetch_union wFetch ["MIZ001", "OHZ002"] (by decide)).2.1 "mi",
   (C4_get_zones_fetch_union wFetch ["MIZ001", "OHZ002"] (by decide)).2.2.2.2⟩

/-- C10: `get_zones` returns a Feed when every fetched whole-state feed holds
at least one alert, and fails as soon as some distinct state prefix's
whole-state fetch yields a zero-alert feed: `filter_by_location` on that
empty feed returns the absent `None` and appending it to the accumulated
alert list is an error (`none` here, a `TypeError` in the source). -/
theorem C10_get_zones_totality (fetch : String → CAP_Feed)
    (zone_codes : List String) :
    ((∀ s ∈ getZonesFetches zone_codes, (fetch s).count_alerts ≠ 0) →
      (CAP_Feed.get_zones fetch zone_codes).isSome)
    ∧ ((∃ s ∈ getZonesFetches zone_codes, (fetch s).count_alerts = 0) →
      CAP_Feed.get_zones fetch zone_codes = none) := by
  constructor
  · intro h
    unfold CAP_Feed.get_zones
    rw [outer_state_fold_some fetch (zoneRequests zone_codes)
      (fun p hp => h p.1 (List.mem_map_of_mem Prod.fst hp)) []]
    rfl
  · rintro ⟨s, hs, hc⟩
    unfold CAP_Feed.get_zones
    obtain ⟨p, hp, hps⟩ := List.mem_map.mp hs
    rw [outer_state_fold_none fetch (zoneRequests zone_codes)
      (zfold_group_ne_nil zone_codes [] (by simp))
      ⟨p, hp, by rw [hps]; exact hc⟩ []]
    rfl

/-- Witness for C10: with the constant non-empty oracle the call succeeds;
with the oracle whose `oh` state feed is empty, the same call fails. -/
theorem C10_get_zones_totality_witness :
    (CAP_Feed.get_zones wFetch ["MIZ001", "OHZ002"]).isSome
    ∧ CAP_Feed.get_zones wFetchBad ["MIZ001", "OHZ002"] = none :=
  ⟨(C10_get_zones_totality wFetch ["MIZ001", "OHZ002"]).1 (by decide),
   (C10_get_zones_totality wFetchBad ["MIZ001", "OHZ002"]).2 (by decide)⟩
